import Mathlib

/-!
Shallow embedding of the string-analyzer service
(`app/services/analyzer.py`, `app/utils/nlp_parser.py`, the filtering and
storage logic of `app/api.py`, and the key-value view of
`app/models/file_storage.py`), together with proofs of the specified
properties.  Strings are modelled as `List Char` (Python strings are
sequences of code points); the SHA-256 digest is an uninterpreted
parameter `sha256_hash`, since no claim depends on the digest's value,
only on it being a fixed function of the input.  Python's character
classifiers and case mapping (`isalnum`, `\s`, `\d`, `lower`) are
rendered by Lean's `Char.isAlphanum`, `Char.isWhitespace`,
`Char.isDigit` and `Char.toLower`; every property proved here is
uniform in that choice.
-/

namespace SA

/-- Python `lit == s[:len(lit)]` helper: if `lit` is an initial segment of
`l`, return the remainder, else `none`. -/
def dropLit : List Char → List Char → Option (List Char)
  | [], l => some l
  | _ :: _, [] => none
  | c :: cs, d :: ds => if c = d then dropLit cs ds else none

/-- Python `pat in s` (substring containment test). -/
def hasSub (pat : List Char) : List Char → Bool
  | [] => (dropLit pat []).isSome
  | c :: t => (dropLit pat (c :: t)).isSome || hasSub pat t

/-- Python `s.strip()`: remove leading and trailing whitespace. -/
def pyStrip (l : List Char) : List Char :=
  ((l.dropWhile Char.isWhitespace).reverse.dropWhile Char.isWhitespace).reverse

/-- Python `s.split()` (no separator argument): maximal runs of
non-whitespace characters, any run of whitespace acting as a delimiter. -/
def pySplit : List Char → List (List Char)
  | [] => []
  | c :: t =>
    if c.isWhitespace then pySplit t
    else
      match t with
      | [] => [[c]]
      | d :: _ =>
        if d.isWhitespace then [c] :: pySplit t
        else
          match pySplit t with
          | [] => [[c]]
          | w :: ws => (c :: w) :: ws

/-- `app/services/analyzer.py`, `character_frequency_map`: one step of the
loop body `freq[char] = freq.get(char, 0) + 1` on an insertion-ordered
dict modelled as an association list. -/
def updateFreq : List (Char × Nat) → Char → List (Char × Nat)
  | [], c => [(c, 1)]
  | (d, n) :: t, c => if d = c then (d, n + 1) :: t else (d, n) :: updateFreq t c

/-- `app/services/analyzer.py`, `character_frequency_map(value)`. -/
def character_frequency_map (value : List Char) : List (Char × Nat) :=
  value.foldl updateFreq []

/-- The derived `properties` object of a stored record. -/
structure Props where
  length : Nat
  is_palindrome : Bool
  unique_characters : Nat
  word_count : Nat
  sha256_hash : String
  character_frequency_map : List (Char × Nat)
deriving DecidableEq

/-- A stored string record (`analyze_string`'s return value). -/
structure StringRecord where
  id : String
  value : List Char
  properties : Props
  created_at : String
deriving DecidableEq

section Analyzer

variable (sha256_hash : List Char → String)

/-- `app/services/analyzer.py`, `analyze_string(value)`.  The timestamp
read (`datetime.now`) is passed in as `created_at`. -/
def analyze_string (value : List Char) (created_at : String) : StringRecord :=
  let _id := sha256_hash value
  let length := value.length
  let normalized_value := value.map Char.toLower
  let cleaned_value := normalized_value.filter Char.isAlphanum
  let is_palindrome := cleaned_value == cleaned_value.reverse
  let unique_characters := value.toFinset.card
  let word_count := (pySplit value).length
  let freq_map := character_frequency_map value
  { id := _id
    value := value
    properties :=
      { length := length
        is_palindrome := is_palindrome
        unique_characters := unique_characters
        word_count := word_count
        sha256_hash := _id
        character_frequency_map := freq_map }
    created_at := created_at }

end Analyzer

/-! ## Storage (`app/models/file_storage.py`, key-value view)

The file-backed dict is modelled as an insertion-ordered association
list from keys to records, matching a Python dict's semantics. -/

/-- The stored data: the dict held in `data/strings.json`. -/
def Store := List (String × StringRecord)

/-- `FileStorage.exists(key)`: `key in data`. -/
def exists_key (store : Store) (key : String) : Bool :=
  match store with
  | [] => false
  | (k, _) :: t => k = key || exists_key t key

/-- `FileStorage.get_object(key)`: `data.get(key)`. -/
def get_object (store : Store) (key : String) : Option StringRecord :=
  match store with
  | [] => none
  | (k, r) :: t => if k = key then some r else get_object t key

/-- `FileStorage.save_object(key, obj)`: `data[key] = obj` — replace in
place when the key is present, append otherwise. -/
def save_object (store : Store) (key : String) (obj : StringRecord) : Store :=
  match store with
  | [] => [(key, obj)]
  | (k, r) :: t =>
    if k = key then (k, obj) :: t else (k, r) :: save_object t key obj

/-- Outcome of the create endpoint: 409 conflict or the created record. -/
inductive CreateResult where
  | conflict : CreateResult
  | created : StringRecord → CreateResult
deriving DecidableEq

section Api

variable (sha256_hash : List Char → String)

/-- `app/api.py`, `create_string`: compute the id, refuse with a 409
conflict when it already exists, otherwise analyze, store and return the
record.  Returns the outcome together with the resulting store. -/
def create_string (store : Store) (value : List Char) (created_at : String) :
    CreateResult × Store :=
  let string_id := sha256_hash value
  if exists_key store string_id then (CreateResult.conflict, store)
  else
    let analyzed_data := analyze_string sha256_hash value created_at
    (CreateResult.created analyzed_data, save_object store string_id analyzed_data)

/-- `app/api.py`, `get_string`: look up by the fingerprint of the path
value; 404 (here `none`) when absent. -/
def get_string (store : Store) (string_value : List Char) : Option StringRecord :=
  let string_id := sha256_hash string_value
  if exists_key store string_id then get_object store string_id else none

end Api

/-! ## Filtering (`app/api.py`, `get_all_strings`) -/

/-- The structured filter criteria: the optional query parameters of the
`GET /strings` endpoint (ints and a free-form string, as in the route
signature; the NLP translator below produces values in a narrower range). -/
structure FilterPredicate where
  is_palindrome : Option Bool := none
  min_length : Option Int := none
  max_length : Option Int := none
  word_count : Option Int := none
  contains_character : Option (List Char) := none
deriving DecidableEq

/-- The per-record filter conditions of `get_all_strings`: each `continue`
branch of the loop, in source order, as one conjunction. -/
def matchesP (p : FilterPredicate) (r : StringRecord) : Bool :=
  (match p.is_palindrome with
   | none => true
   | some b => r.properties.is_palindrome = b) &&
  (match p.min_length with
   | none => true
   | some n => !(decide ((r.properties.length : Int) < n))) &&
  (match p.max_length with
   | none => true
   | some n => !(decide ((r.properties.length : Int) > n))) &&
  (match p.word_count with
   | none => true
   | some n => (r.properties.word_count : Int) = n) &&
  (match p.contains_character with
   | none => true
   | some cs => hasSub cs r.value)

/-- The accumulation loop of `get_all_strings`: keep, in input order, the
records passing every present filter. -/
def filter_all : List StringRecord → FilterPredicate → List StringRecord
  | [], _ => []
  | r :: rest, p =>
    if matchesP p r then r :: filter_all rest p else filter_all rest p

/-! ## Natural-language translator (`app/utils/nlp_parser.py`) -/

/-- Digit string to number, as Python `int` on a matched `\d+` group. -/
def natOfDigits (l : List Char) : Nat :=
  l.foldl (fun acc c => acc * 10 + (c.toNat - 48)) 0

/-- The regex `longer than (\d+)` tried at one starting position:
the literal `"longer than "` followed by a maximal non-empty digit run. -/
def longerAt (l : List Char) : Option Nat :=
  match dropLit ("longer than ".toList) l with
  | none => none
  | some rest =>
    let ds := rest.takeWhile Char.isDigit
    if ds.isEmpty then none else some (natOfDigits ds)

/-- `re.search(r"longer than (\d+)", q)`: leftmost match wins. -/
def searchLonger : List Char → Option Nat
  | [] => none
  | c :: t =>
    match longerAt (c :: t) with
    | some n => some n
    | none => searchLonger t

/-- `\s+` with maximal munch: one mandatory whitespace character then any
further run.  (In the letter regex every continuation after `\s+` starts
with a non-whitespace character, so maximal munch is exact.) -/
def wsPlus : List Char → Option (List Char)
  | [] => none
  | c :: t => if c.isWhitespace then some (t.dropWhile Char.isWhitespace) else none

/-- `([a-z])`: capture a single lowercase ASCII letter. -/
def grabLetter : List Char → Option Char
  | [] => none
  | c :: _ => if 'a' ≤ c ∧ c ≤ 'z' then some c else none

/-- `(?:letter\s+)?([a-z])` with backtracking: greedily try the optional
group, fall back to skipping it when the rest then fails. -/
def letterPart (l : List Char) : Option Char :=
  match dropLit ("letter".toList) l with
  | some r =>
    match wsPlus r with
    | some r2 =>
      match grabLetter r2 with
      | some c => some c
      | none => grabLetter l
    | none => grabLetter l
  | none => grabLetter l

/-- `(?:the\s+)?(?:letter\s+)?([a-z])` with backtracking. -/
def thePart (l : List Char) : Option Char :=
  match dropLit ("the".toList) l with
  | some r =>
    match wsPlus r with
    | some r2 =>
      match letterPart r2 with
      | some c => some c
      | none => letterPart l
    | none => letterPart l
  | none => letterPart l

/-- `\s+(?:the\s+)?(?:letter\s+)?([a-z])`, the part after the
`contain(?:s|ing)?` head. -/
def tailPart (l : List Char) : Option Char :=
  match wsPlus l with
  | some r => thePart r
  | none => none

/-- The regex `contain(?:s|ing)?\s+(?:the\s+)?(?:letter\s+)?([a-z])`
tried at one starting position, alternatives of the optional group in
regex order (`s`, then `ing`, then empty) with backtracking. -/
def containAt (l : List Char) : Option Char :=
  match dropLit ("contain".toList) l with
  | none => none
  | some r =>
    match (dropLit ("s".toList) r).bind tailPart with
    | some c => some c
    | none =>
      match (dropLit ("ing".toList) r).bind tailPart with
      | some c => some c
      | none => tailPart r

/-- `re.search` for the letter regex: leftmost matching position wins. -/
def searchContain : List Char → Option Char
  | [] => none
  | c :: t =>
    match containAt (c :: t) with
    | some x => some x
    | none => searchContain t

/-- The literal phrases the translator recognizes. -/
def kwPalindrom : List Char := "palindrom".toList

/-- See `kwPalindrom`. -/
def kwPalindromic : List Char := "palindromic".toList

/-- See `kwPalindrom`. -/
def kwSingleWord : List Char := "single word".toList

/-- See `kwPalindrom`. -/
def kwOneWord : List Char := "one word".toList

/-- See `kwPalindrom`. -/
def kwTwoWord : List Char := "two word".toList

/-- See `kwPalindrom`. -/
def kwFirstVowel : List Char := "first vowel".toList

/-- `app/utils/nlp_parser.py`, `parse_natural_language(query)`: the five
recognition rules applied in source order to `query.lower().strip()`. -/
def parse_natural_language (query : List Char) : FilterPredicate :=
  let query_lower := pyStrip (query.map Char.toLower)
  let f0 : FilterPredicate := {}
  let f1 :=
    if hasSub kwPalindrom query_lower ||
        hasSub kwPalindromic query_lower then
      { f0 with is_palindrome := some true }
    else f0
  let f2 :=
    if hasSub kwSingleWord query_lower ||
        hasSub kwOneWord query_lower then
      { f1 with word_count := some 1 }
    else if hasSub kwTwoWord query_lower then
      { f1 with word_count := some 2 }
    else f1
  let f3 :=
    match searchLonger query_lower with
    | some n => { f2 with min_length := some ((n : Int) + 1) }
    | none => f2
  let f4 :=
    match searchContain query_lower with
    | some c => { f3 with contains_character := some [c] }
    | none => f3
  let f5 :=
    if hasSub kwFirstVowel query_lower then
      { f4 with contains_character := some ("a".toList) }
    else f4
  f5

/-! ## Helper lemmas -/

/-- Looking up a key right after `save_object` stored an object under it
returns that object, whatever the store held before. -/
theorem get_object_save_object (store : Store) (key : String) (obj : StringRecord) :
    get_object (save_object store key obj) key = some obj := by
  induction store with
  | nil => simp [save_object, get_object]
  | cons p t ih =>
    obtain ⟨k, r⟩ := p
    by_cases h : k = key
    · simp [save_object, get_object, h]
    · simp [save_object, get_object, h, ih]

/-- Stated from the spec's words, for comparison with the source's
`len(value.split())`: the number of maximal whitespace-delimited
non-empty tokens, counted left to right; the flag records whether the
previous character was inside a token. -/
def spec_token_count : List Char → Bool → Nat
  | [], _ => 0
  | c :: t, inTok =>
    if c.isWhitespace then spec_token_count t false
    else (if inTok then 0 else 1) + spec_token_count t true

/-- `pySplit` produces one list element per maximal non-whitespace run. -/
theorem pySplit_length (l : List Char) :
    (pySplit l).length = spec_token_count l false := by
  induction l with
  | nil => rfl
  | cons c t ih =>
    by_cases hc : c.isWhitespace
    · simpa [pySplit, spec_token_count, hc] using ih
    · cases t with
      | nil => simp [pySplit, spec_token_count, hc]
      | cons d t2 =>
        by_cases hd : d.isWhitespace
        · simp [pySplit, spec_token_count, hc, hd] at ih ⊢
          omega
        · cases hps : pySplit (d :: t2) with
          | nil =>
            rw [hps] at ih
            simp [spec_token_count, hd] at ih
            omega
          | cons w ws =>
            rw [hps] at ih
            simp [spec_token_count, hd] at ih
            rw [pySplit.eq_def]
            simp [hc, hd, hps, spec_token_count]
            omega

/-- One `freq[char] = freq.get(char, 0) + 1` step raises the total count
by one. -/
theorem updateFreq_snd_sum (m : List (Char × Nat)) (c : Char) :
    ((updateFreq m c).map Prod.snd).sum = (m.map Prod.snd).sum + 1 := by
  induction m with
  | nil => simp [updateFreq]
  | cons p t ih =>
    obtain ⟨d, n⟩ := p
    by_cases h : d = c
    · simp [updateFreq, h]
      omega
    · simp [updateFreq, h, ih]
      omega

/-- One update step leaves the key list unchanged when the character is
already a key, and appends it otherwise. -/
theorem updateFreq_fst (m : List (Char × Nat)) (c : Char) :
    (updateFreq m c).map Prod.fst =
      if c ∈ m.map Prod.fst then m.map Prod.fst else m.map Prod.fst ++ [c] := by
  induction m with
  | nil => simp [updateFreq]
  | cons p t ih =>
    obtain ⟨d, n⟩ := p
    by_cases h : d = c
    · simp [updateFreq, h]
    · by_cases hc : c ∈ t.map Prod.fst <;>
        simp [updateFreq, h, ih, hc, Ne.symm h]

/-- Update steps keep the key list duplicate-free. -/
theorem updateFreq_fst_nodup (m : List (Char × Nat)) (c : Char)
    (h : (m.map Prod.fst).Nodup) : ((updateFreq m c).map Prod.fst).Nodup := by
  rw [updateFreq_fst]
  by_cases hc : c ∈ m.map Prod.fst
  · simpa [hc] using h
  · simp [hc, List.nodup_append, h]

/-- Update steps insert the character into the key set. -/
theorem updateFreq_fst_toFinset (m : List (Char × Nat)) (c : Char) :
    ((updateFreq m c).map Prod.fst).toFinset =
      insert c (m.map Prod.fst).toFinset := by
  rw [updateFreq_fst]
  by_cases hc : c ∈ m.map Prod.fst
  · simp [hc, Finset.insert_eq_self.mpr (List.mem_toFinset.mpr hc)]
  · rw [if_neg hc, List.toFinset_append, Finset.insert_eq, Finset.union_comm]
    simp

/-- Folding the update over a string adds its length to the total count. -/
theorem freq_foldl_sum (l : List Char) (acc : List (Char × Nat)) :
    ((l.foldl updateFreq acc).map Prod.snd).sum =
      (acc.map Prod.snd).sum + l.length := by
  induction l generalizing acc with
  | nil => simp
  | cons c t ih =>
    simp [List.foldl_cons, ih, updateFreq_snd_sum]
    omega

/-- Folding the update over a string keeps the key list duplicate-free. -/
theorem freq_foldl_fst_nodup (l : List Char) (acc : List (Char × Nat))
    (h : (acc.map Prod.fst).Nodup) :
    ((l.foldl updateFreq acc).map Prod.fst).Nodup := by
  induction l generalizing acc with
  | nil => exact h
  | cons c t ih => exact ih _ (updateFreq_fst_nodup _ _ h)

/-- Folding the update over a string joins its characters into the key
set. -/
theorem freq_foldl_fst_toFinset (l : List Char) (acc : List (Char × Nat)) :
    ((l.foldl updateFreq acc).map Prod.fst).toFinset =
      (acc.map Prod.fst).toFinset ∪ l.toFinset := by
  induction l generalizing acc with
  | nil => simp
  | cons c t ih =>
    rw [List.foldl_cons, ih, updateFreq_fst_toFinset]
    ext x
    simp only [Finset.mem_union, Finset.mem_insert, List.mem_toFinset, List.mem_cons]
    tauto

/-- The accumulation loop of `get_all_strings` is `List.filter` by the
per-record conditions. -/
theorem filter_all_eq_filter (records : List StringRecord) (p : FilterPredicate) :
    filter_all records p = records.filter (fun r => matchesP p r) := by
  induction records with
  | nil => rfl
  | cons r rest ih =>
    by_cases h : matchesP p r <;> simp [filter_all, List.filter_cons, h, ih]

/-- The capture group `([a-z])` only ever yields a lowercase ASCII
letter. -/
theorem grabLetter_lower (l : List Char) (c : Char) (h : grabLetter l = some c) :
    'a' ≤ c ∧ c ≤ 'z' := by
  cases l with
  | nil => simp [grabLetter] at h
  | cons d t =>
    by_cases hd : 'a' ≤ d ∧ d ≤ 'z'
    · simp [grabLetter, hd] at h
      exact h ▸ hd
    · simp [grabLetter, hd] at h

/-- `letterPart` only ever captures a lowercase ASCII letter. -/
theorem letterPart_lower (l : List Char) (c : Char) (h : letterPart l = some c) :
    'a' ≤ c ∧ c ≤ 'z' := by
  unfold letterPart at h
  repeat' split at h
  any_goals exact grabLetter_lower _ _ h
  all_goals
    rename_i c2 hg
    cases h
    exact grabLetter_lower _ _ hg

/-- `thePart` only ever captures a lowercase ASCII letter. -/
theorem thePart_lower (l : List Char) (c : Char) (h : thePart l = some c) :
    'a' ≤ c ∧ c ≤ 'z' := by
  unfold thePart at h
  repeat' split at h
  any_goals exact letterPart_lower _ _ h
  all_goals
    rename_i c2 hg
    cases h
    exact letterPart_lower _ _ hg

/-- `tailPart` only ever captures a lowercase ASCII letter. -/
theorem tailPart_lower (l : List Char) (c : Char) (h : tailPart l = some c) :
    'a' ≤ c ∧ c ≤ 'z' := by
  unfold tailPart at h
  split at h
  · exact thePart_lower _ _ h
  · exact absurd h (by simp)

/-- `containAt` only ever captures a lowercase ASCII letter. -/
theorem containAt_lower (l : List Char) (c : Char) (h : containAt l = some c) :
    'a' ≤ c ∧ c ≤ 'z' := by
  unfold containAt at h
  repeat' split at h
  any_goals exact tailPart_lower _ _ h
  any_goals
    rename_i c2 hg
    cases h
    obtain ⟨r2, _, hr2⟩ := Option.bind_eq_some.mp hg
    exact tailPart_lower _ _ hr2
  all_goals simp at h

/-- `searchContain` only ever captures a lowercase ASCII letter. -/
theorem searchContain_lower (l : List Char) (c : Char)
    (h : searchContain l = some c) : 'a' ≤ c ∧ c ≤ 'z' := by
  induction l with
  | nil => simp [searchContain] at h
  | cons d t ih =>
    simp only [searchContain] at h
    split at h
    · rename_i x hx
      cases h
      exact containAt_lower _ _ hx
    · exact ih h

/-! ## Claims -/

/-- C1: `analyze_string(s).properties.is_palindrome` is true exactly when
lower-casing `s` and dropping every non-alphanumeric character yields a
string equal to its own reverse; in particular an empty cleaned string is
reported as a palindrome. -/
theorem analyze_is_palindrome_iff (sha256_hash : List Char → String)
    (value : List Char) (created_at : String) :
    ((analyze_string sha256_hash value created_at).properties.is_palindrome = true ↔
      (value.map Char.toLower).filter Char.isAlphanum =
        ((value.map Char.toLower).filter Char.isAlphanum).reverse) ∧
    ((value.map Char.toLower).filter Char.isAlphanum = [] →
      (analyze_string sha256_hash value created_at).properties.is_palindrome = true) := by
  constructor
  · simp [analyze_string]
  · intro h
    simp [analyze_string, h]

/-- C6: when the computed id of a string already exists in the store,
`create_string` refuses with a conflict and leaves the store — hence the
record stored under that id — exactly as it was. -/
theorem create_string_conflict (sha256_hash : List Char → String) (store : Store)
    (value : List Char) (created_at : String)
    (h : exists_key store (sha256_hash value) = true) :
    create_string sha256_hash store value created_at = (CreateResult.conflict, store) := by
  simp [create_string, h]

/-- Witness for C6: a concrete store already holding the id of `"a"`
makes `create_string` report a conflict and keep the store unchanged. -/
theorem create_string_conflict_witness :
    create_string (fun _ => "k") [("k", analyze_string (fun _ => "k") [] "t0")]
        ("a".toList) "t1" =
      (CreateResult.conflict, [("k", analyze_string (fun _ => "k") [] "t0")]) :=
  create_string_conflict (fun _ => "k") [("k", analyze_string (fun _ => "k") [] "t0")]
    ("a".toList) "t1" (by decide)

/-- C7: storing `analyze_string(s)` under key `sha256_hash(s)` and then
retrieving by that key returns a record whose `value` field is `s`,
whatever the store held before. -/
theorem analyze_store_roundtrip (sha256_hash : List Char → String) (store : Store)
    (value : List Char) (created_at : String) :
    (get_object
        (save_object store (sha256_hash value)
          (analyze_string sha256_hash value created_at))
        (sha256_hash value)).map StringRecord.value = some value := by
  rw [get_object_save_object]
  rfl

/-- C8: the analyzer's `length` is the code-point count of `value`,
`word_count` is the number of maximal whitespace-delimited non-empty
tokens (so 0 for the empty string), and `unique_characters` is the number
of distinct characters of the original, non-normalized `value`. -/
theorem analyze_counts (sha256_hash : List Char → String)
    (value : List Char) (created_at : String) :
    (analyze_string sha256_hash value created_at).properties.length = value.length ∧
    (analyze_string sha256_hash value created_at).properties.word_count =
      spec_token_count value false ∧
    spec_token_count [] false = 0 ∧
    (analyze_string sha256_hash value created_at).properties.unique_characters =
      value.toFinset.card := by
  refine ⟨rfl, ?_, rfl, rfl⟩
  simpa [analyze_string] using pySplit_length value

/-- C9: an analyzed record is internally consistent — the counts in
`character_frequency_map` sum to `properties.length`, its key set is the
set of distinct characters of the input, and its number of keys equals
`properties.unique_characters`. -/
theorem analyze_freq_consistent (sha256_hash : List Char → String)
    (value : List Char) (created_at : String) :
    (((analyze_string sha256_hash value created_at).properties.character_frequency_map.map
        Prod.snd).sum =
      (analyze_string sha256_hash value created_at).properties.length) ∧
    ((analyze_string sha256_hash value created_at).properties.character_frequency_map.map
        Prod.fst).toFinset = value.toFinset ∧
    ((analyze_string sha256_hash value created_at).properties.character_frequency_map.map
        Prod.fst).length =
      (analyze_string sha256_hash value created_at).properties.unique_characters := by
  have hnd : ((character_frequency_map value).map Prod.fst).Nodup :=
    freq_foldl_fst_nodup value [] (by simp)
  have htf : ((character_frequency_map value).map Prod.fst).toFinset = value.toFinset := by
    simpa [character_frequency_map] using freq_foldl_fst_toFinset value []
  refine ⟨?_, ?_, ?_⟩
  · simpa [analyze_string, character_frequency_map] using freq_foldl_sum value []
  · simpa [analyze_string] using htf
  · have := List.toFinset_card_of_nodup hnd
    rw [htf] at this
    simpa [analyze_string] using this.symm

/-- C2: filtering keeps exactly the records for which every present
predicate field holds conjunctively — palindrome and word count by
equality, the length bounds inclusively, `contains_character` by
case-sensitive substring membership in the original value — in the same
relative order as the input, and the empty predicate keeps everything. -/
theorem filter_all_spec (records : List StringRecord) (p : FilterPredicate) :
    List.Sublist (filter_all records p) records ∧
    filter_all records p = records.filter (fun r => matchesP p r) ∧
    (∀ r : StringRecord, matchesP {} r = true) ∧
    (∀ r : StringRecord, matchesP p r = true ↔
      ((∀ b, p.is_palindrome = some b → r.properties.is_palindrome = b) ∧
       (∀ n, p.min_length = some n → n ≤ (r.properties.length : Int)) ∧
       (∀ n, p.max_length = some n → (r.properties.length : Int) ≤ n) ∧
       (∀ n, p.word_count = some n → (r.properties.word_count : Int) = n) ∧
       (∀ cs, p.contains_character = some cs → hasSub cs r.value = true))) := by
  refine ⟨?_, filter_all_eq_filter records p, fun r => rfl, ?_⟩
  · rw [filter_all_eq_filter]
    exact List.filter_sublist records
  · intro r
    rcases p with ⟨ip, mn, mx, wc, cc⟩
    cases ip <;> cases mn <;> cases mx <;> cases wc <;> cases cc <;>
      simp [matchesP, not_lt, and_assoc]

/-- C3: when no recognition rule fires on the lower-cased, trimmed query,
the translator returns the entirely empty predicate (and, being a total
function, it returns a normal predicate for every input). -/
theorem translate_no_triggers (query : List Char)
    (h1 : hasSub kwPalindrom (pyStrip (query.map Char.toLower)) = false)
    (h2 : hasSub kwPalindromic (pyStrip (query.map Char.toLower)) = false)
    (h3 : hasSub kwSingleWord (pyStrip (query.map Char.toLower)) = false)
    (h4 : hasSub kwOneWord (pyStrip (query.map Char.toLower)) = false)
    (h5 : hasSub kwTwoWord (pyStrip (query.map Char.toLower)) = false)
    (h6 : searchLonger (pyStrip (query.map Char.toLower)) = none)
    (h7 : searchContain (pyStrip (query.map Char.toLower)) = none)
    (h8 : hasSub kwFirstVowel (pyStrip (query.map Char.toLower)) = false) :
    parse_natural_language query = {} := by
  simp [parse_natural_language, h1, h2, h3, h4, h5, h6, h7, h8]

/-- Witness for C3: `"gibberish no filters here"` triggers no rule and
yields the entirely empty predicate. -/
theorem translate_no_triggers_witness :
    parse_natural_language ("gibberish no filters here".toList) = {} :=
  translate_no_triggers ("gibberish no filters here".toList) (by decide) (by decide)
    (by decide) (by decide) (by decide) (by decide) (by decide) (by decide)

/-- C4: a query containing the literal phrase `"first vowel"` (after
lower-casing and trimming) always ends with `contains_character = "a"`,
whatever the general letter rule matched earlier, because the first-vowel
assignment is applied last. -/
theorem translate_first_vowel (query : List Char)
    (h : hasSub kwFirstVowel (pyStrip (query.map Char.toLower)) = true) :
    (parse_natural_language query).contains_character = some ("a".toList) := by
  simp [parse_natural_language, h]

/-- Witness for C4: a query matching both the general letter rule and the
first-vowel phrase reports `contains_character = "a"`, not the letter the
general rule captured. -/
theorem translate_first_vowel_witness :
    (parse_natural_language ("containing the letter z and the first vowel".toList)).contains_character =
      some ("a".toList) :=
  translate_first_vowel ("containing the letter z and the first vowel".toList) (by decide)

/-- C5: a query containing a phrase matching `longer than <integer>`
gets `min_length` set to that integer plus one (the leftmost match, as
`re.search` finds it). -/
theorem translate_longer_than (query : List Char) (n : Nat)
    (h : searchLonger (pyStrip (query.map Char.toLower)) = some n) :
    (parse_natural_language query).min_length = some ((n : Int) + 1) := by
  simp only [parse_natural_language, h]
  repeat' split
  all_goals simp

/-- Witness for C5: `translate("strings longer than 5").min_length = 6`. -/
theorem translate_longer_than_witness :
    (parse_natural_language ("strings longer than 5".toList)).min_length = some 6 := by
  have h := translate_longer_than ("strings longer than 5".toList) 5 (by decide)
  simpa using h

/-- C10: the translator's output range is restricted — `is_palindrome`
can only be set to true, `max_length` is never set, `word_count` is only
ever 1 or 2, `min_length` is always at least 1, and `contains_character`
is always a single lowercase letter. -/
theorem translate_range (query : List Char) :
    ((parse_natural_language query).is_palindrome = none ∨
      (parse_natural_language query).is_palindrome = some true) ∧
    (parse_natural_language query).max_length = none ∧
    ((parse_natural_language query).word_count = none ∨
      (parse_natural_language query).word_count = some 1 ∨
      (parse_natural_language query).word_count = some 2) ∧
    (∀ n : Int, (parse_natural_language query).min_length = some n → 1 ≤ n) ∧
    (∀ cs : List Char, (parse_natural_language query).contains_character = some cs →
      ∃ c, cs = [c] ∧ 'a' ≤ c ∧ c ≤ 'z') := by
  refine ⟨?_, ?_, ?_, ?_, ?_⟩
  · simp only [parse_natural_language]
    repeat' split
    all_goals simp
  · simp only [parse_natural_language]
    repeat' split
    all_goals simp
  · simp only [parse_natural_language]
    repeat' split
    all_goals simp
  · intro n h
    simp only [parse_natural_language] at h
    repeat' split at h
    all_goals simp at h
    all_goals omega
  · intro cs h
    simp only [parse_natural_language] at h
    repeat' split at h
    all_goals simp at h
    all_goals first
      | exact ⟨'a', h.symm, by decide, by decide⟩
      | (rename searchContain _ = some _ => hg
         exact ⟨_, h.symm, (searchContain_lower _ _ hg).1,
           (searchContain_lower _ _ hg).2⟩)

end SA
